import Mathlib

/-!
Shallow embedding of the echoserver TCP relay (src/main.rs) together with
proofs about its frame codec, size-bound checks, per-connection sliding
window rate limiter, broadcast fan-out, id allocation, listener capacity
gate, and session teardown.
-/

namespace EchoServer

/-- The semantics of `i32::from_le_bytes` on four byte values: little-endian
unsigned recombination reinterpreted as a two's-complement signed 32-bit
integer (src/main.rs:218). -/
def i32FromLeBytes (b0 b1 b2 b3 : Nat) : Int :=
  let u : Nat := b0 % 256 + 256 * (b1 % 256) + 65536 * (b2 % 256) +
    16777216 * (b3 % 256)
  if u < 2147483648 then (u : Int) else (u : Int) - 4294967296

/-- Header decode on the 4-byte size buffer; missing bytes read as 0,
matching the zero-initialised buffer at src/main.rs:198. -/
def decodeSize (b : List Nat) : Int :=
  i32FromLeBytes (b.getD 0 0) (b.getD 1 0) (b.getD 2 0) (b.getD 3 0)

/-- One second in nanoseconds: `now.duration_since(t).as_secs_f64() > 1.0`
at src/main.rs:249 holds exactly when the elapsed nanoseconds exceed this
bound (nanosecond counts are far below 2^53, so the f64 comparison is
exact). -/
def windowNs : Nat := 1000000000

/-- Whether a queue entry timestamped `t` has fallen out of the trailing
one-second window at time `now` (timestamps in nanoseconds; `Nat`
subtraction mirrors the saturating `duration_since`). -/
def isOld (now t : Nat) : Bool := decide (windowNs < now - t)

/-- Per-connection rate-limiter state: `msg_times` and `msg_sum`
(src/main.rs:193-194). Timestamps are nanoseconds. -/
structure SessionState where
  msg_times : List (Nat × Int)
  msg_sum : Int
deriving DecidableEq, Repr

/-- The trim loop at src/main.rs:248-253: pop stale entries from the front
of the queue, subtracting each popped entry's weight from the running sum,
stopping at the first entry still inside the window. -/
def trimLoop : List (Nat × Int) → Int → Nat → List (Nat × Int) × Int
  | [], s, _ => ([], s)
  | (t, n) :: rest, s, now =>
    if isOld now t then trimLoop rest (s - n) now else ((t, n) :: rest, s)

/-- The throttle block at src/main.rs:245-257: trim, then reject when the
running sum has reached `max_rate`, otherwise record `(now, size)` and add
the frame's size to the sum. -/
def throttleStep (st : SessionState) (now : Nat) (size maxRate : Int) :
    Bool × SessionState :=
  let p := trimLoop st.msg_times st.msg_sum now
  if maxRate ≤ p.2 then (false, ⟨p.1, p.2⟩)
  else (true, ⟨p.1 ++ [(now, size)], p.2 + size⟩)

/-- The broadcast block at src/main.rs:276-281: write the 4 header bytes
followed by the payload bytes to every registry entry whose id differs from
the sender's, or to every entry when mirror is enabled. The result is the
list of (target id, bytes written) pairs in registry iteration order. -/
def broadcast (keys : List Int) (id : Int) (sizeBytes contentBytes : List Nat)
    (mirror : Bool) : List (Int × List Nat) :=
  keys.filterMap fun oid =>
    if oid ≠ id ∨ mirror = true then some (oid, sizeBytes ++ contentBytes)
    else none

/-- Outcome of one `read_bytes` call (src/main.rs:299-326): `full` when all
requested bytes arrived (`Ok`), `interrupted` when it returned `Err(None)`
-- the peer closed with a zero-byte read, or the cancellation flag was
cleared -- after filling only a prefix of the buffer, `ioUnrecoverable` for
`Err(Some(e))`. -/
inductive ReadOutcome where
  | full (bytes : List Nat)
  | interrupted (bytes : List Nat)
  | ioUnrecoverable
deriving DecidableEq, Repr

/-- The buffer `handle_client` goes on to use after a `read_bytes` call for
`n` bytes: on `Err(Some _)` it breaks out of the loop (`none`); on `Ok`
and -- as the `None => { }` match arms at src/main.rs:206 and 241 do --
also on `Err(None)`, it falls through holding the buffer, whose unwritten
tail keeps its zero initialisation. -/
def readBuffer (n : Nat) : ReadOutcome → Option (List Nat)
  | .full bytes => some bytes
  | .interrupted bytes => some (bytes ++ List.replicate (n - bytes.length) 0)
  | .ioUnrecoverable => none

/-- Inputs consumed by one iteration of the `handle_client` read loop: the
registry contents observed under the broadcast lock, the outcomes of the
header read and the payload read, and the `Instant::now()` timestamp
(nanoseconds) taken in the throttle block. -/
structure IterInput where
  keys : List Int
  headerRead : ReadOutcome
  payloadRead : ReadOutcome
  now : Nat
deriving DecidableEq, Repr

/-- Result of one read-loop iteration: `closed` for a `break`, `throttled`
for the rate-limit `continue`, `sent` when a broadcast was performed. -/
inductive StepOutcome where
  | closed
  | throttled (st : SessionState)
  | sent (st : SessionState) (writes : List (Int × List Nat))
deriving DecidableEq, Repr

/-- One iteration of the read loop at src/main.rs:196-283: read the 4-byte
size, decode it, close the connection when it is above 512 or below 4, read
the `size - 4` payload bytes, run the throttle block, and on admission
broadcast the header and payload bytes. -/
def loopIter (maxRate : Int) (mirror : Bool) (id : Int) (st : SessionState)
    (i : IterInput) : StepOutcome :=
  match readBuffer 4 i.headerRead with
  | none => .closed
  | some sizeBytes =>
    let size := decodeSize sizeBytes
    if 512 < size then .closed
    else if size < 4 then .closed
    else
      match readBuffer (size - 4).toNat i.payloadRead with
      | none => .closed
      | some contentBytes =>
        match throttleStep st i.now size maxRate with
        | (false, st1) => .throttled st1
        | (true, st1) => .sent st1 (broadcast i.keys id sizeBytes contentBytes mirror)

/-- A registry operation performed by a session after registration. -/
inductive RegistryOp where
  | broadcastOp (id : Int) (writes : List (Int × List Nat))
  | removeOp (id : Int)
deriving DecidableEq, Repr

/-- The read loop followed by the removal block at src/main.rs:285-296: run
iterations until one `break`s, then remove the session's id from the
registry. Returns the trace of registry operations together with whether
the loop terminated within the supplied inputs. -/
def sessionRun (maxRate : Int) (mirror : Bool) (id : Int) :
    SessionState → List IterInput → List RegistryOp × Bool
  | _, [] => ([], false)
  | st, i :: rest =>
    match loopIter maxRate mirror id st i with
    | .closed => ([RegistryOp.removeOp id], true)
    | .throttled st1 => sessionRun maxRate mirror id st1 rest
    | .sent st1 ws =>
      let r := sessionRun maxRate mirror id st1 rest
      (RegistryOp.broadcastOp id ws :: r.1, r.2)

/-- `HashMap::remove(&id)` on the registry key set (src/main.rs:294). -/
def applyRemove (keys : List Int) (id : Int) : List Int :=
  keys.filter fun k => k ≠ id

/-- The id-roll loop at src/main.rs:165: starting from candidate `cand`,
re-draw (consuming `draws`, each draw produced by
`random_range(10000..16384)`) while the candidate is 0 or collides with a
registry key; `none` when the supplied draws run out with the loop still
spinning. -/
def rollId (keys : List Int) : Int → List Int → Option Int
  | cand, [] => if cand = 0 ∨ cand ∈ keys then none else some cand
  | cand, d :: rest =>
    if cand = 0 ∨ cand ∈ keys then rollId keys d rest else some cand

/-- Fate of one socket accepted by the listener loop. -/
inductive SocketFate where
  | droppedNoSession
  | ownedBySession
deriving DecidableEq, Repr

/-- The capacity gate at src/main.rs:387: the registry size observed under
the lock against `max_players`; at or above capacity the accepted stream is
dropped by the `continue`, otherwise it is moved into a spawned session. -/
def acceptStep (maxPlayers : Int) (registryLen : Nat) : SocketFate :=
  if maxPlayers ≤ (registryLen : Int) then .droppedNoSession else .ownedBySession

/-- The listener loop at src/main.rs:376-403 over a list of accept events
`(socket, observed registry size)`: returns the sockets moved into spawned
sessions and the sockets dropped without a session. -/
def listenerRun (maxPlayers : Int) : List (Nat × Nat) → List Nat × List Nat
  | [] => ([], [])
  | (sock, len) :: rest =>
    let r := listenerRun maxPlayers rest
    match acceptStep maxPlayers len with
    | .droppedNoSession => (r.1, sock :: r.2)
    | .ownedBySession => (sock :: r.1, r.2)

/-- Joint state of two concurrently connecting sessions during the setup
phase of `handle_client`: the registry key set plus, for each thread, a
program counter (0 = before the id-roll critical section at
src/main.rs:154-167, 1 = id allocated and that lock released, 2 = inserted
by the second critical section at src/main.rs:172-191), the allocated id,
and the thread's pending random draws. -/
structure SetupWorld where
  keys : List Int
  pcA : Nat
  idA : Int
  drawsA : List Int
  pcB : Nat
  idB : Int
  drawsB : List Int
deriving DecidableEq, Repr

/-- One atomic critical section of connection setup: at pc 0 the id-roll
loop runs under the registry lock; at pc 1 the allocated id is inserted
under a second, separate lock acquisition. The lock is released between
the two sections, so sections of the other thread may interleave. -/
def setupSection (keys : List Int) (pc : Nat) (id : Int) (draws : List Int) :
    List Int × Nat × Int :=
  if pc = 0 then
    match rollId keys 0 draws with
    | some i => (keys, 1, i)
    | none => (keys, 0, id)
  else if pc = 1 then
    ((if id ∈ keys then keys else keys ++ [id]), 2, id)
  else (keys, pc, id)

/-- Run a schedule of critical sections; a `false` step runs thread A's
next section, a `true` step runs thread B's. -/
def setupRun : SetupWorld → List Bool → SetupWorld
  | w, [] => w
  | w, false :: rest =>
    let r := setupSection w.keys w.pcA w.idA w.drawsA
    setupRun { w with keys := r.1, pcA := r.2.1, idA := r.2.2 } rest
  | w, true :: rest =>
    let r := setupSection w.keys w.pcB w.idB w.drawsB
    setupRun { w with keys := r.1, pcB := r.2.1, idB := r.2.2 } rest

/-- Sum of the weights of the queued entries. -/
def sumWeights (q : List (Nat × Int)) : Int := (q.map fun e => e.2).sum

/-- The rate-limiter representation invariant: the running sum equals the
total weight of the queued entries, and timestamps are non-decreasing from
front to back. -/
def SessionInv (st : SessionState) : Prop :=
  st.msg_sum = sumWeights st.msg_times ∧
  List.Pairwise (fun a b => a.1 ≤ b.1) st.msg_times

/-- Iterated throttle decisions over a list of `(now, weight)` messages. -/
def admitRun : SessionState → Int → List (Nat × Int) → List Bool
  | _, _, [] => []
  | st, maxRate, (now, w) :: rest =>
    let r := throttleStep st now w maxRate
    r.1 :: admitRun r.2 maxRate rest

/-- On a queue with front-to-back non-decreasing timestamps, the front trim
removes exactly the entries that fell out of the window, subtracting
exactly their weights from the running sum. -/
theorem trimLoop_eq (now : Nat) :
    ∀ (q : List (Nat × Int)) (s : Int),
      List.Pairwise (fun a b => a.1 ≤ b.1) q →
      trimLoop q s now =
        (q.filter (fun e => !(isOld now e.1)),
         s - sumWeights (q.filter (fun e => isOld now e.1)))
  | [], s, _ => by simp [trimLoop, sumWeights]
  | (t, n) :: rest, s, h => by
    obtain ⟨hle, hrest⟩ := List.pairwise_cons.mp h
    by_cases hold : isOld now t = true
    · rw [trimLoop, if_pos hold, trimLoop_eq now rest (s - n) hrest]
      simp [List.filter_cons, hold, sumWeights, sub_sub]
    · have hall : ∀ e ∈ rest, ¬ isOld now e.1 = true := by
        intro e he
        simp only [isOld, decide_eq_true_eq] at hold ⊢
        intro hc
        exact hold (lt_of_lt_of_le hc (Nat.sub_le_sub_left (hle e he) now))
      have h1 : rest.filter (fun e => !(isOld now e.1)) = rest := by
        refine List.filter_eq_self.mpr ?_
        intro e he
        simpa using hall e he
      have h2 : rest.filter (fun e => isOld now e.1) = [] := by
        refine List.filter_eq_nil_iff.mpr ?_
        intro e he
        simpa using hall e he
      rw [trimLoop, if_neg hold]
      simp [List.filter_cons, hold, h1, h2, sumWeights]

/-- Splitting the queue weight total along a predicate. -/
theorem sumWeights_filter_add (p : Nat × Int → Bool) :
    ∀ q : List (Nat × Int),
      sumWeights (q.filter p) + sumWeights (q.filter fun e => !(p e)) =
        sumWeights q
  | [] => by simp [sumWeights]
  | e :: rest => by
    have ih := sumWeights_filter_add p rest
    simp only [sumWeights] at ih
    by_cases hp : p e = true
    · simp [List.filter_cons, hp, sumWeights]
      omega
    · have hp2 : p e = false := by simpa using hp
      simp [List.filter_cons, hp2, sumWeights]
      omega

/-- Membership in the broadcast write list. -/
theorem mem_broadcast (keys : List Int) (id oid : Int) (sb cb : List Nat)
    (mirror : Bool) (bs : List Nat) :
    (oid, bs) ∈ broadcast keys id sb cb mirror ↔
      oid ∈ keys ∧ bs = sb ++ cb ∧ (oid ≠ id ∨ mirror = true) := by
  simp only [broadcast, List.mem_filterMap]
  constructor
  · rintro ⟨a, ha, hfa⟩
    by_cases hc : a ≠ id ∨ mirror = true
    · rw [if_pos hc] at hfa
      simp only [Option.some.injEq, Prod.mk.injEq] at hfa
      obtain ⟨h1, h2⟩ := hfa
      subst h1
      subst h2
      exact ⟨ha, rfl, hc⟩
    · rw [if_neg hc] at hfa
      simp at hfa
  · rintro ⟨hmem, rfl, hc⟩
    exact ⟨oid, hmem, if_pos hc⟩

/-- The broadcast targets form a sublist of the registry key list. -/
theorem broadcast_fst_sublist (id : Int) (sb cb : List Nat) (mirror : Bool) :
    ∀ keys : List Int,
      ((broadcast keys id sb cb mirror).map Prod.fst).Sublist keys
  | [] => by simp [broadcast]
  | a :: rest => by
    have ih := broadcast_fst_sublist id sb cb mirror rest
    by_cases hc : a ≠ id ∨ mirror = true
    · simp only [broadcast, List.filterMap_cons]
      rw [if_pos hc]
      simpa [broadcast] using ih.cons₂ a
    · simp only [broadcast, List.filterMap_cons]
      rw [if_neg hc]
      simpa [broadcast] using ih.cons a

/-- Any id returned by the roll loop is the initial candidate or one of the
draws, is nonzero, and avoids every registry key. -/
theorem rollId_sound (keys : List Int) :
    ∀ (draws : List Int) (cand r : Int),
      rollId keys cand draws = some r →
      (r = cand ∨ r ∈ draws) ∧ r ≠ 0 ∧ r ∉ keys
  | [], cand, r => by
    intro h
    rw [rollId] at h
    by_cases hc : cand = 0 ∨ cand ∈ keys
    · rw [if_pos hc] at h
      simp at h
    · rw [if_neg hc] at h
      simp only [Option.some.injEq] at h
      subst h
      push_neg at hc
      exact ⟨Or.inl rfl, hc.1, hc.2⟩
  | d :: rest, cand, r => by
    intro h
    rw [rollId] at h
    by_cases hc : cand = 0 ∨ cand ∈ keys
    · rw [if_pos hc] at h
      obtain ⟨hmem, h0, hk⟩ := rollId_sound keys rest d r h
      refine ⟨Or.inr ?_, h0, hk⟩
      rcases hmem with rfl | h1
      · exact List.mem_cons_self r rest
      · exact List.mem_cons_of_mem d h1
    · rw [if_neg hc] at h
      simp only [Option.some.injEq] at h
      subst h
      push_neg at hc
      exact ⟨Or.inl rfl, hc.1, hc.2⟩

/-- Listener step on an at-capacity accept: the socket lands in the dropped
list. -/
theorem listenerRun_cons_ge (maxPlayers : Int) (sock len : Nat)
    (rest : List (Nat × Nat)) (hc : maxPlayers ≤ (len : Int)) :
    listenerRun maxPlayers ((sock, len) :: rest) =
      ((listenerRun maxPlayers rest).1,
       sock :: (listenerRun maxPlayers rest).2) := by
  simp [listenerRun, acceptStep, hc]

/-- Listener step on a below-capacity accept: the socket is moved into a
spawned session. -/
theorem listenerRun_cons_lt (maxPlayers : Int) (sock len : Nat)
    (rest : List (Nat × Nat)) (hc : (len : Int) < maxPlayers) :
    listenerRun maxPlayers ((sock, len) :: rest) =
      (sock :: (listenerRun maxPlayers rest).1,
       (listenerRun maxPlayers rest).2) := by
  simp [listenerRun, acceptStep, not_le.mpr hc]

/-- Every socket the listener spawns or drops came from an accept event. -/
theorem listenerRun_mem_of (maxPlayers : Int) :
    ∀ (events : List (Nat × Nat)) (x : Nat),
      (x ∈ (listenerRun maxPlayers events).1 → x ∈ events.map Prod.fst) ∧
      (x ∈ (listenerRun maxPlayers events).2 → x ∈ events.map Prod.fst)
  | [], x => by simp [listenerRun]
  | (sock, len) :: rest, x => by
    have ih := listenerRun_mem_of maxPlayers rest x
    by_cases hc : maxPlayers ≤ (len : Int)
    · rw [listenerRun_cons_ge maxPlayers sock len rest hc]
      refine ⟨fun hx => List.mem_cons_of_mem _ (ih.1 hx), fun hx => ?_⟩
      rcases List.mem_cons.mp hx with rfl | hx
      · exact List.mem_cons_self _ _
      · exact List.mem_cons_of_mem _ (ih.2 hx)
    · rw [listenerRun_cons_lt maxPlayers sock len rest (not_le.mp hc)]
      refine ⟨fun hx => ?_, fun hx => List.mem_cons_of_mem _ (ih.2 hx)⟩
      rcases List.mem_cons.mp hx with rfl | hx
      · exact List.mem_cons_self _ _
      · exact List.mem_cons_of_mem _ (ih.1 hx)

/-- Full behaviour of the listener loop on a run of accept events with
pairwise-distinct sockets: at-capacity accepts are dropped without a
session, below-capacity accepts are owned by exactly one session. -/
theorem listenerRun_spec (maxPlayers : Int) :
    ∀ events : List (Nat × Nat), (events.map Prod.fst).Nodup →
      (∀ e ∈ events,
        (maxPlayers ≤ (e.2 : Int) →
          e.1 ∈ (listenerRun maxPlayers events).2 ∧
          e.1 ∉ (listenerRun maxPlayers events).1) ∧
        ((e.2 : Int) < maxPlayers →
          e.1 ∈ (listenerRun maxPlayers events).1 ∧
          e.1 ∉ (listenerRun maxPlayers events).2)) ∧
      (listenerRun maxPlayers events).1.Nodup ∧
      (listenerRun maxPlayers events).2.Nodup
  | [], _ => by simp [listenerRun]
  | (sock, len) :: rest, hnd => by
    rw [List.map_cons, List.nodup_cons] at hnd
    obtain ⟨hs, hrest⟩ := hnd
    obtain ⟨hall, hsp, hdr⟩ := listenerRun_spec maxPlayers rest hrest
    by_cases hc : maxPlayers ≤ (len : Int)
    · rw [listenerRun_cons_ge maxPlayers sock len rest hc]
      refine ⟨?_, hsp, List.nodup_cons.mpr
        ⟨fun hx => hs ((listenerRun_mem_of maxPlayers rest sock).2 hx), hdr⟩⟩
      intro e he
      rcases List.mem_cons.mp he with rfl | he
      · constructor
        · intro _
          exact ⟨List.mem_cons_self _ _,
            fun hx => hs ((listenerRun_mem_of maxPlayers rest _).1 hx)⟩
        · intro hlt
          exact absurd hc (not_le.mpr hlt)
      · have hmemf : e.1 ∈ rest.map Prod.fst := List.mem_map_of_mem Prod.fst he
        refine ⟨fun hle => ?_, fun hlt => ?_⟩
        · obtain ⟨h1, h2⟩ := (hall e he).1 hle
          exact ⟨List.mem_cons_of_mem _ h1, h2⟩
        · obtain ⟨h1, h2⟩ := (hall e he).2 hlt
          refine ⟨h1, fun hx => ?_⟩
          rcases List.mem_cons.mp hx with h3 | h3
          · exact hs (h3 ▸ hmemf)
          · exact h2 h3
    · have hlt0 := not_le.mp hc
      rw [listenerRun_cons_lt maxPlayers sock len rest hlt0]
      refine ⟨?_, List.nodup_cons.mpr
        ⟨fun hx => hs ((listenerRun_mem_of maxPlayers rest sock).1 hx), hsp⟩, hdr⟩
      intro e he
      rcases List.mem_cons.mp he with rfl | he
      · constructor
        · intro hle
          exact absurd hle hc
        · intro _
          exact ⟨List.mem_cons_self _ _,
            fun hx => hs ((listenerRun_mem_of maxPlayers rest _).2 hx)⟩
      · have hmemf : e.1 ∈ rest.map Prod.fst := List.mem_map_of_mem Prod.fst he
        refine ⟨fun hle => ?_, fun hlt => ?_⟩
        · obtain ⟨h1, h2⟩ := (hall e he).1 hle
          refine ⟨h1, fun hx => ?_⟩
          rcases List.mem_cons.mp hx with h3 | h3
          · exact hs (h3 ▸ hmemf)
          · exact h2 h3
        · obtain ⟨h1, h2⟩ := (hall e he).2 hlt
          exact ⟨List.mem_cons_of_mem _ h1, h2⟩

/-- Pushing an element on the front keeps the last element. -/
theorem getLast?_cons_of_ne_nil {α : Type} (a : α) {l : List α} {x : α}
    (h : l.getLast? = some x) : (a :: l).getLast? = some x := by
  cases l with
  | nil => simp at h
  | cons b tl => rw [List.getLast?_cons_cons]; exact h

/-- Every terminating run of the read loop ends with the removal of the
session's id, and a run that has not terminated has performed no removal. -/
theorem sessionRun_removal (maxRate : Int) (mirror : Bool) (id : Int) :
    ∀ (inputs : List IterInput) (st : SessionState),
      ((sessionRun maxRate mirror id st inputs).2 = true →
        (sessionRun maxRate mirror id st inputs).1.getLast? =
          some (RegistryOp.removeOp id)) ∧
      ((sessionRun maxRate mirror id st inputs).2 = false →
        RegistryOp.removeOp id ∉ (sessionRun maxRate mirror id st inputs).1)
  | [], st => by simp [sessionRun]
  | i :: rest, st => by
    cases h : loopIter maxRate mirror id st i with
    | closed =>
      have hrun : sessionRun maxRate mirror id st (i :: rest) =
          ([RegistryOp.removeOp id], true) := by
        simp [sessionRun, h]
      rw [hrun]
      exact ⟨fun _ => rfl, fun hf => by simp at hf⟩
    | throttled st1 =>
      have hrun : sessionRun maxRate mirror id st (i :: rest) =
          sessionRun maxRate mirror id st1 rest := by
        simp [sessionRun, h]
      rw [hrun]
      exact sessionRun_removal maxRate mirror id rest st1
    | sent st1 ws =>
      have ih := sessionRun_removal maxRate mirror id rest st1
      have hrun : sessionRun maxRate mirror id st (i :: rest) =
          (RegistryOp.broadcastOp id ws ::
            (sessionRun maxRate mirror id st1 rest).1,
           (sessionRun maxRate mirror id st1 rest).2) := by
        simp [sessionRun, h]
      rw [hrun]
      constructor
      · intro ht
        exact getLast?_cons_of_ne_nil _ (ih.1 ht)
      · intro hf hmem
        rcases List.mem_cons.mp hmem with h1 | h1
        · simp at h1
        · exact ih.2 hf h1

/-- Claim C4: the 4-byte header is decoded as a little-endian signed 32-bit
integer, a header with the top bit set decodes negative, and whenever the
decoded size is above 512 or below 4 the read-loop iteration closes the
connection without reading the payload and without broadcasting. -/
theorem header_bounds_close_connection :
    (∀ b0 b1 b2 b3 : Nat, b0 < 256 → b1 < 256 → b2 < 256 → b3 < 256 →
      i32FromLeBytes b0 b1 b2 b3 =
        ((b0 : Int) + 256 * b1 + 65536 * b2 + 16777216 * b3 + 2147483648) %
            4294967296 - 2147483648) ∧
    (∀ b0 b1 b2 b3 : Nat, b0 < 256 → b1 < 256 → b2 < 256 →
      128 ≤ b3 → b3 < 256 → i32FromLeBytes b0 b1 b2 b3 < 0) ∧
    (∀ (maxRate : Int) (mirror : Bool) (id : Int) (st : SessionState)
        (keys : List Int) (sb : List Nat) (pr : ReadOutcome) (now : Nat),
      sb.length = 4 →
      512 < decodeSize sb ∨ decodeSize sb < 4 →
      loopIter maxRate mirror id st ⟨keys, .full sb, pr, now⟩ = .closed) := by
  refine ⟨?_, ?_, ?_⟩
  · intro b0 b1 b2 b3 h0 h1 h2 h3
    simp only [i32FromLeBytes]
    rw [Nat.mod_eq_of_lt h0, Nat.mod_eq_of_lt h1, Nat.mod_eq_of_lt h2,
      Nat.mod_eq_of_lt h3]
    split
    · push_cast
      omega
    · push_cast
      omega
  · intro b0 b1 b2 b3 h0 h1 h2 h3lo h3hi
    simp only [i32FromLeBytes]
    rw [Nat.mod_eq_of_lt h0, Nat.mod_eq_of_lt h1, Nat.mod_eq_of_lt h2,
      Nat.mod_eq_of_lt h3hi]
    split
    · omega
    · push_cast
      omega
  · intro maxRate mirror id st keys sb pr now _ hrange
    simp only [loopIter, readBuffer]
    rcases hrange with h | h
    · rw [if_pos h]
    · rw [if_neg (by omega : ¬ (512 : Int) < decodeSize sb), if_pos h]

/-- Claim C4 witness: concrete evaluations of the three parts. -/
theorem header_bounds_close_connection_witness :
    i32FromLeBytes 0 0 0 128 =
      ((0 : Int) + 256 * 0 + 65536 * 0 + 16777216 * 128 + 2147483648) %
          4294967296 - 2147483648 ∧
    i32FromLeBytes 0 0 0 128 < 0 ∧
    loopIter 8000 true 1 ⟨[], 0⟩
        ⟨[1], .full [1, 2, 0, 0], .ioUnrecoverable, 0⟩ = .closed :=
  ⟨header_bounds_close_connection.1 0 0 0 128 (by decide) (by decide)
      (by decide) (by decide),
   header_bounds_close_connection.2.1 0 0 0 128 (by decide) (by decide)
      (by decide) (by decide) (by decide),
   header_bounds_close_connection.2.2 8000 true 1 ⟨[], 0⟩ [1] [1, 2, 0, 0]
      .ioUnrecoverable 0 (by decide) (Or.inl (by decide))⟩

/-- Claim C5, code behaviour at the failing input: with peers {1111, 2222},
mirror off, the sender having delivered the 4-byte header `[10,0,0,0]` and
then closed the connection (so the payload read returns `Err(None)` after
zero bytes), the read-loop iteration does not disconnect: it admits the
frame and broadcasts 10 bytes whose 6 payload bytes were never received
(they are the buffer's zero fill), contradicting the claim that an
incomplete frame is never broadcast. -/
theorem incomplete_frame_broadcast_bug :
    loopIter 8000 false 1111 ⟨[], 0⟩
        ⟨[1111, 2222], .full [10, 0, 0, 0], .interrupted [], 0⟩ =
      .sent ⟨[(0, 10)], 10⟩ [(2222, [10, 0, 0, 0, 0, 0, 0, 0, 0, 0])] := by
  decide

/-- Claim C6, code behaviour at the failing input: id allocation and
registry insertion run in two separate critical sections (the lock scopes
at src/main.rs:154-167 and 172-191), so under the interleaving "A
allocates, B allocates, A inserts, B inserts" from an empty registry, with
both RNG streams first drawing 10000, both sessions complete setup holding
the same identifier 10000 — the interleaving the claim asserts is
impossible. -/
theorem id_allocation_race_bug :
    setupRun ⟨[], 0, 0, [10000], 0, 0, [10000]⟩ [false, true, false, true] =
      ⟨[10000], 2, 10000, [10000], 2, 10000, [10000]⟩ ∧
    (setupRun ⟨[], 0, 0, [10000], 0, 0, [10000]⟩
        [false, true, false, true]).idA =
      (setupRun ⟨[], 0, 0, [10000], 0, 0, [10000]⟩
        [false, true, false, true]).idB :=
  ⟨by decide, by decide⟩

/-- Claim C2 counterexample: the limiter weights each frame by its byte
size (`msg_sum += size`), so with max_rate = 60, mirror off, peers
{1, 2, 3}, when client 1 sends 62 ten-byte frames within one second only 6
broadcasts are performed in total — not the 61 the claim (the first frame
plus 60 of the following 61) requires. -/
theorem rate_limit_message_count_counterexample :
    ((sessionRun 60 false 1 ⟨[], 0⟩ ((List.range 62).map fun k =>
        ⟨[1, 2, 3], .full [10, 0, 0, 0], .full [9, 8, 7, 6, 5, 4], k⟩)).1.length
      = 6) ∧ (6 : Nat) ≠ 61 :=
  ⟨by decide, by decide⟩

/-- Claim C2 amended: three clients {1, 2, 3}, mirror disabled,
max_rate 60. Client 1 sends one 10-byte frame: clients 2 and 3 each
receive exactly those 10 bytes and client 1 receives nothing. Because the
limiter weights frames by byte size, of the 61 further 10-byte frames
client 1 sends within the same second exactly the first 5 are admitted
(the window byte sum reaches 60) and the remaining 56 are dropped. -/
theorem rate_limit_byte_weighted_scenario :
    loopIter 60 false 1 ⟨[], 0⟩
        ⟨[1, 2, 3], .full [10, 0, 0, 0], .full [9, 8, 7, 6, 5, 4], 0⟩ =
      .sent ⟨[(0, 10)], 10⟩
        [(2, [10, 0, 0, 0, 9, 8, 7, 6, 5, 4]),
         (3, [10, 0, 0, 0, 9, 8, 7, 6, 5, 4])] ∧
    admitRun ⟨[(0, 10)], 10⟩ 60 ((List.range 61).map fun k => (k + 1, 10)) =
      List.replicate 5 true ++ List.replicate 56 false :=
  ⟨by decide, by decide⟩

/-- Claim C1: for every frame a session accepts (decoded size S with
4 ≤ S ≤ 512, admitted by the rate limiter), the broadcast step emits
exactly the S frame bytes (the 4 header bytes followed by the S - 4 payload
bytes) to every registry entry other than the sender's, to the sender's own
entry iff mirror is enabled, each eligible entry exactly once, and to no
entry outside the registry. -/
theorem broadcast_delivers_exact_frame (keys : List Int) (id : Int)
    (sb cb : List Nat) (mirror : Bool) (S maxRate : Int) (st : SessionState)
    (now : Nat) (hS : decodeSize sb = S) (h4 : 4 ≤ S) (h512 : S ≤ 512)
    (hsb : sb.length = 4) (hcb : cb.length = (S - 4).toNat)
    (hadm : (throttleStep st now S maxRate).1 = true)
    (hid : id ∈ keys) (hnd : keys.Nodup) :
    loopIter maxRate mirror id st ⟨keys, .full sb, .full cb, now⟩ =
      .sent (throttleStep st now S maxRate).2 (broadcast keys id sb cb mirror) ∧
    (∀ oid ∈ keys, oid ≠ id →
      (oid, sb ++ cb) ∈ broadcast keys id sb cb mirror) ∧
    ((id, sb ++ cb) ∈ broadcast keys id sb cb mirror ↔ mirror = true) ∧
    (∀ p ∈ broadcast keys id sb cb mirror,
      p.1 ∈ keys ∧ p.2 = sb ++ cb ∧ (p.1 ≠ id ∨ mirror = true)) ∧
    ((broadcast keys id sb cb mirror).map Prod.fst).Nodup ∧
    (sb ++ cb).length = S.toNat := by
  refine ⟨?_, ?_, ?_, ?_, ?_, ?_⟩
  · have hth : throttleStep st now S maxRate =
        (true, (throttleStep st now S maxRate).2) := by
      rw [← hadm]
    simp only [loopIter, readBuffer, hS]
    rw [if_neg (by omega : ¬ (512 : Int) < S), if_neg (by omega : ¬ S < 4),
      hth]
  · intro oid hoid hne
    exact (mem_broadcast keys id oid sb cb mirror _).mpr ⟨hoid, rfl, Or.inl hne⟩
  · constructor
    · intro hmem
      obtain ⟨_, _, hc⟩ := (mem_broadcast keys id id sb cb mirror _).mp hmem
      rcases hc with hc | hc
      · exact absurd rfl hc
      · exact hc
    · intro hm
      exact (mem_broadcast keys id id sb cb mirror _).mpr ⟨hid, rfl, Or.inr hm⟩
  · rintro ⟨p1, p2⟩ hp
    exact (mem_broadcast keys id p1 sb cb mirror p2).mp hp
  · exact (broadcast_fst_sublist id sb cb mirror keys).nodup hnd
  · rw [List.length_append, hsb, hcb]
    omega

/-- Claim C1 witness: a concrete accepted frame of size 10, mirror on. -/
theorem broadcast_delivers_exact_frame_witness :
    loopIter 8000 true 1 ⟨[], 0⟩
        ⟨[1, 2], .full [10, 0, 0, 0], .full [5, 6, 7, 8, 9, 11], 0⟩ =
      .sent (throttleStep ⟨[], 0⟩ 0 10 8000).2
        (broadcast [1, 2] 1 [10, 0, 0, 0] [5, 6, 7, 8, 9, 11] true) ∧
    (2, [10, 0, 0, 0] ++ [5, 6, 7, 8, 9, 11]) ∈
      broadcast [1, 2] 1 [10, 0, 0, 0] [5, 6, 7, 8, 9, 11] true ∧
    ([10, 0, 0, 0] ++ [5, 6, 7, 8, 9, 11] : List Nat).length =
      (10 : Int).toNat :=
  have h := broadcast_delivers_exact_frame [1, 2] 1 [10, 0, 0, 0]
    [5, 6, 7, 8, 9, 11] true 10 8000 ⟨[], 0⟩ 0 (by decide) (by decide)
    (by decide) (by decide) (by decide) (by decide) (by decide) (by decide)
  ⟨h.1, h.2.1 2 (by decide) (by decide), h.2.2.2.2.2⟩

/-- Claim C3: at each rate-limiter decision on a front-to-back time-sorted
queue, the trim first removes exactly the entries older than one second,
subtracting exactly their weights from the running sum; if the post-trim
sum has reached the threshold the message is rejected, the state is left
exactly at its post-trim value, and the iteration continues without
forwarding; otherwise `(now, w)` is appended, `w` is added to the sum, and
the frame is forwarded. -/
theorem throttle_trim_then_decide (st : SessionState) (now : Nat)
    (w maxRate : Int)
    (hsorted : List.Pairwise (fun a b => a.1 ≤ b.1) st.msg_times) :
    (trimLoop st.msg_times st.msg_sum now).1 =
      st.msg_times.filter (fun e => !(isOld now e.1)) ∧
    (trimLoop st.msg_times st.msg_sum now).2 =
      st.msg_sum - sumWeights (st.msg_times.filter (fun e => isOld now e.1)) ∧
    (maxRate ≤ (trimLoop st.msg_times st.msg_sum now).2 →
      throttleStep st now w maxRate =
        (false, ⟨(trimLoop st.msg_times st.msg_sum now).1,
                 (trimLoop st.msg_times st.msg_sum now).2⟩) ∧
      ∀ (mirror : Bool) (id : Int) (keys : List Int) (sb cb : List Nat),
        decodeSize sb = w → 4 ≤ w → w ≤ 512 →
        loopIter maxRate mirror id st ⟨keys, .full sb, .full cb, now⟩ =
          .throttled ⟨(trimLoop st.msg_times st.msg_sum now).1,
                      (trimLoop st.msg_times st.msg_sum now).2⟩) ∧
    ((trimLoop st.msg_times st.msg_sum now).2 < maxRate →
      throttleStep st now w maxRate =
        (true, ⟨(trimLoop st.msg_times st.msg_sum now).1 ++ [(now, w)],
                (trimLoop st.msg_times st.msg_sum now).2 + w⟩) ∧
      ∀ (mirror : Bool) (id : Int) (keys : List Int) (sb cb : List Nat),
        decodeSize sb = w → 4 ≤ w → w ≤ 512 →
        loopIter maxRate mirror id st ⟨keys, .full sb, .full cb, now⟩ =
          .sent ⟨(trimLoop st.msg_times st.msg_sum now).1 ++ [(now, w)],
                 (trimLoop st.msg_times st.msg_sum now).2 + w⟩
            (broadcast keys id sb cb mirror)) := by
  have htrim := trimLoop_eq now st.msg_times st.msg_sum hsorted
  refine ⟨by rw [htrim], by rw [htrim], ?_, ?_⟩
  · intro hge
    have hstep : throttleStep st now w maxRate =
        (false, ⟨(trimLoop st.msg_times st.msg_sum now).1,
                 (trimLoop st.msg_times st.msg_sum now).2⟩) := by
      simp only [throttleStep]
      rw [if_pos hge]
    refine ⟨hstep, ?_⟩
    intro mirror id keys sb cb hsb h4 h512
    simp only [loopIter, readBuffer, hsb]
    rw [if_neg (by omega : ¬ (512 : Int) < w), if_neg (by omega : ¬ w < 4),
      hstep]
  · intro hlt
    have hstep : throttleStep st now w maxRate =
        (true, ⟨(trimLoop st.msg_times st.msg_sum now).1 ++ [(now, w)],
                (trimLoop st.msg_times st.msg_sum now).2 + w⟩) := by
      simp only [throttleStep]
      rw [if_neg (not_le.mpr hlt)]
    refine ⟨hstep, ?_⟩
    intro mirror id keys sb cb hsb h4 h512
    simp only [loopIter, readBuffer, hsb]
    rw [if_neg (by omega : ¬ (512 : Int) < w), if_neg (by omega : ¬ w < 4),
      hstep]

/-- Claim C3 witness: a queue with one stale and one fresh entry at the
rejection threshold. -/
theorem throttle_trim_then_decide_witness :
    (trimLoop [(0, 5), (2000000000, 7)] 12 2500000000).1 =
      ([((0 : Nat), (5 : Int)), (2000000000, 7)]).filter
        (fun e => !(isOld 2500000000 e.1)) ∧
    throttleStep ⟨[(0, 5), (2000000000, 7)], 12⟩ 2500000000 4 7 =
      (false, ⟨(trimLoop [(0, 5), (2000000000, 7)] 12 2500000000).1,
               (trimLoop [(0, 5), (2000000000, 7)] 12 2500000000).2⟩) ∧
    loopIter 7 false 1 ⟨[(0, 5), (2000000000, 7)], 12⟩
        ⟨[1, 2], .full [4, 0, 0, 0], .full [], 2500000000⟩ =
      .throttled ⟨(trimLoop [(0, 5), (2000000000, 7)] 12 2500000000).1,
                  (trimLoop [(0, 5), (2000000000, 7)] 12 2500000000).2⟩ :=
  have h := throttle_trim_then_decide ⟨[(0, 5), (2000000000, 7)], 12⟩
    2500000000 4 7 (by decide)
  have h3 := h.2.2.1 (by decide)
  ⟨h.1, h3.1, h3.2 false 1 [1, 2] [4, 0, 0, 0] [] (by decide) (by decide)
    (by decide)⟩

/-- Claim C7: whenever the allocation loop terminates (its draws coming
from `random_range(10000..16384)`), the returned id is within 10000..16383
inclusive, nonzero, and distinct from every registry key present at
allocation time; a candidate that is zero or collides is re-drawn. -/
theorem allocate_id_in_range_fresh (keys draws : List Int) (id : Int)
    (hdraws : ∀ d ∈ draws, 10000 ≤ d ∧ d < 16384)
    (hres : rollId keys 0 draws = some id) :
    10000 ≤ id ∧ id ≤ 16383 ∧ id ≠ 0 ∧ id ∉ keys ∧
    ∀ (cand d : Int) (rest : List Int), cand = 0 ∨ cand ∈ keys →
      rollId keys cand (d :: rest) = rollId keys d rest := by
  obtain ⟨hmem, h0, hk⟩ := rollId_sound keys draws 0 id hres
  have hid : id ∈ draws := by
    rcases hmem with h | h
    · exact absurd h h0
    · exact h
  obtain ⟨hlo, hhi⟩ := hdraws id hid
  refine ⟨hlo, by omega, h0, hk, ?_⟩
  intro cand d rest hc
  simp only [rollId]
  rw [if_pos hc]

/-- Claim C7 witness: zero and a colliding draw are re-drawn; the result
10005 is in range and fresh. -/
theorem allocate_id_in_range_fresh_witness :
    (10000 : Int) ≤ 10005 ∧ (10005 : Int) ≤ 16383 ∧ (10005 : Int) ≠ 0 ∧
    (10005 : Int) ∉ [(10000 : Int), 3] ∧
    rollId [(10000 : Int), 3] 10000 [10005] =
      rollId [(10000 : Int), 3] 10005 [] :=
  have h := allocate_id_in_range_fresh [10000, 3] [10000, 10005] 10005
    (by decide) (by decide)
  ⟨h.1, h.2.1, h.2.2.1, h.2.2.2.1,
   h.2.2.2.2 10000 10005 [] (Or.inr (by decide))⟩

/-- Claim C8: every socket accepted while the observed registry size is at
least max_players is dropped with no session spawned, and every socket
accepted below capacity is moved into exactly one spawned session (over
distinct sockets the spawned list has no duplicates and is disjoint from
the dropped list). -/
theorem listener_capacity_gate (maxPlayers : Int) (events : List (Nat × Nat))
    (hnd : (events.map Prod.fst).Nodup) :
    (∀ e ∈ events,
      (maxPlayers ≤ (e.2 : Int) →
        e.1 ∈ (listenerRun maxPlayers events).2 ∧
        e.1 ∉ (listenerRun maxPlayers events).1) ∧
      ((e.2 : Int) < maxPlayers →
        e.1 ∈ (listenerRun maxPlayers events).1 ∧
        e.1 ∉ (listenerRun maxPlayers events).2)) ∧
    (listenerRun maxPlayers events).1.Nodup ∧
    (listenerRun maxPlayers events).2.Nodup :=
  listenerRun_spec maxPlayers events hnd

/-- Claim C8 witness: with max_players 10, an accept observed at size 10 is
dropped and one observed at size 3 is spawned. -/
theorem listener_capacity_gate_witness :
    (100 ∈ (listenerRun 10 [(100, 10), (200, 3)]).2 ∧
     100 ∉ (listenerRun 10 [(100, 10), (200, 3)]).1) ∧
    (200 ∈ (listenerRun 10 [(100, 10), (200, 3)]).1 ∧
     200 ∉ (listenerRun 10 [(100, 10), (200, 3)]).2) ∧
    (listenerRun 10 [(100, 10), (200, 3)]).1.Nodup :=
  have h := listener_capacity_gate 10 [(100, 10), (200, 3)] (by decide)
  ⟨(h.1 (100, 10) (by decide)).1 (by decide),
   (h.1 (200, 3) (by decide)).2 (by decide),
   h.2.1⟩

/-- Claim C9: every termination of a registered session's read loop is
followed by the removal of its id from the registry (and a run that has
not terminated performs no removal); the removed id no longer appears in
the registry key set, can be returned by a later allocation draw, and a
broadcast over a registry lacking the id never writes to it. -/
theorem session_exit_removes_id (maxRate : Int) (mirror : Bool) (id : Int)
    (st : SessionState) (inputs : List IterInput) :
    ((sessionRun maxRate mirror id st inputs).2 = true →
      (sessionRun maxRate mirror id st inputs).1.getLast? =
        some (RegistryOp.removeOp id)) ∧
    ((sessionRun maxRate mirror id st inputs).2 = false →
      RegistryOp.removeOp id ∉ (sessionRun maxRate mirror id st inputs).1) ∧
    (∀ keys : List Int, id ∉ applyRemove keys id) ∧
    (∀ keys : List Int, id ∉ keys → 10000 ≤ id → id < 16384 →
      rollId keys 0 [id] = some id) ∧
    (∀ (keys : List Int) (sender : Int) (sb cb : List Nat) (m : Bool)
        (p : Int × List Nat), id ∉ keys →
      p ∈ broadcast keys sender sb cb m → p.1 ≠ id) := by
  refine ⟨(sessionRun_removal maxRate mirror id inputs st).1,
    (sessionRun_removal maxRate mirror id inputs st).2, ?_, ?_, ?_⟩
  · intro keys
    simp [applyRemove]
  · intro keys hk h1 h2
    have hne : ¬ (id = 0 ∨ id ∈ keys) := by
      intro hc
      rcases hc with hc | hc
      · omega
      · exact hk hc
    simp only [rollId]
    rw [if_pos (Or.inl trivial), if_neg hne]
  · intro keys sender sb cb m p hk hp heq
    have hfst : p.1 ∈ keys :=
      (broadcast_fst_sublist sender sb cb m keys).subset
        (List.mem_map_of_mem Prod.fst hp)
    exact hk (heq ▸ hfst)

/-- Claim C9 witness: a session whose first read hits a hard I/O error
terminates and its trace ends with the removal of its id 10007; the removed
id is absent from the shrunk key set and can be re-allocated. -/
theorem session_exit_removes_id_witness :
    (sessionRun 8000 false 10007 ⟨[], 0⟩
        [⟨[10007], .ioUnrecoverable, .ioUnrecoverable, 0⟩]).1.getLast? =
      some (RegistryOp.removeOp 10007) ∧
    (10007 : Int) ∉ applyRemove [3, 10007] 10007 ∧
    rollId [3] 0 [10007] = some 10007 :=
  have h := session_exit_removes_id 8000 false 10007 ⟨[], 0⟩
    [⟨[10007], .ioUnrecoverable, .ioUnrecoverable, 0⟩]
  ⟨h.1 (by decide), h.2.2.1 [3, 10007],
   h.2.2.2.1 [3] (by decide) (by decide) (by decide)⟩

/-- Claim C10: the rate-limiter invariant — the running sum equals the
total queued weight and timestamps are non-decreasing front to back —
holds for the fresh state and is preserved both by the trim step and by
the full throttle step (under clock monotonicity: every queued timestamp
is at most `now`). -/
theorem rate_limiter_invariant_preserved (st : SessionState) (now : Nat)
    (w maxRate : Int) (hinv : SessionInv st)
    (hnow : ∀ e ∈ st.msg_times, e.1 ≤ now) :
    SessionInv ⟨[], 0⟩ ∧
    SessionInv ⟨(trimLoop st.msg_times st.msg_sum now).1,
                (trimLoop st.msg_times st.msg_sum now).2⟩ ∧
    SessionInv (throttleStep st now w maxRate).2 := by
  obtain ⟨hsum, hsort⟩ := hinv
  have htrim := trimLoop_eq now st.msg_times st.msg_sum hsort
  have h1 : (trimLoop st.msg_times st.msg_sum now).1 =
      st.msg_times.filter (fun e => !(isOld now e.1)) := by rw [htrim]
  have h2 : (trimLoop st.msg_times st.msg_sum now).2 =
      st.msg_sum - sumWeights (st.msg_times.filter (fun e => isOld now e.1)) := by
    rw [htrim]
  have hsplit := sumWeights_filter_add (fun e => isOld now e.1) st.msg_times
  have hsortT : List.Pairwise (fun a b => a.1 ≤ b.1)
      (st.msg_times.filter (fun e => !(isOld now e.1))) := hsort.filter _
  have hsumT : st.msg_sum -
      sumWeights (st.msg_times.filter (fun e => isOld now e.1)) =
      sumWeights (st.msg_times.filter (fun e => !(isOld now e.1))) := by
    simp only [sumWeights] at hsplit hsum ⊢
    omega
  have htrimInv : SessionInv ⟨(trimLoop st.msg_times st.msg_sum now).1,
      (trimLoop st.msg_times st.msg_sum now).2⟩ := by
    constructor
    · show (trimLoop st.msg_times st.msg_sum now).2 =
        sumWeights (trimLoop st.msg_times st.msg_sum now).1
      rw [h1, h2]
      exact hsumT
    · show List.Pairwise (fun a b => a.1 ≤ b.1)
        (trimLoop st.msg_times st.msg_sum now).1
      rw [h1]
      exact hsortT
  refine ⟨⟨rfl, List.Pairwise.nil⟩, htrimInv, ?_⟩
  by_cases hge : maxRate ≤ (trimLoop st.msg_times st.msg_sum now).2
  · have hstep : throttleStep st now w maxRate =
        (false, ⟨(trimLoop st.msg_times st.msg_sum now).1,
                 (trimLoop st.msg_times st.msg_sum now).2⟩) := by
      simp only [throttleStep]
      rw [if_pos hge]
    rw [hstep]
    exact htrimInv
  · have hstep : throttleStep st now w maxRate =
        (true, ⟨(trimLoop st.msg_times st.msg_sum now).1 ++ [(now, w)],
                (trimLoop st.msg_times st.msg_sum now).2 + w⟩) := by
      simp only [throttleStep]
      rw [if_neg hge]
    rw [hstep]
    constructor
    · show (trimLoop st.msg_times st.msg_sum now).2 + w =
        sumWeights ((trimLoop st.msg_times st.msg_sum now).1 ++ [(now, w)])
      rw [h1, h2]
      simp only [sumWeights, List.map_append, List.sum_append, List.map_cons,
        List.sum_cons, List.map_nil, List.sum_nil]
      simp only [sumWeights] at hsumT
      omega
    · show List.Pairwise (fun a b => a.1 ≤ b.1)
        ((trimLoop st.msg_times st.msg_sum now).1 ++ [(now, w)])
      rw [h1]
      refine List.pairwise_append.mpr
        ⟨hsortT, List.pairwise_singleton _ _, ?_⟩
      intro a ha b hb
      rcases List.mem_singleton.mp hb with rfl
      exact hnow a (List.mem_of_mem_filter ha)

/-- Claim C10 witness: one stale entry is trimmed and a new admission keeps
the invariant. -/
theorem rate_limiter_invariant_preserved_witness :
    SessionInv ⟨[], 0⟩ ∧
    SessionInv ⟨(trimLoop [((0 : Nat), (4 : Int))] 4 1500000000).1,
                (trimLoop [((0 : Nat), (4 : Int))] 4 1500000000).2⟩ ∧
    SessionInv (throttleStep ⟨[(0, 4)], 4⟩ 1500000000 10 60).2 :=
  rate_limiter_invariant_preserved ⟨[(0, 4)], 4⟩ 1500000000 10 60
    ⟨by decide, by decide⟩ (by decide)

end EchoServer
